import Mathlib

/-!
Shallow embedding of `src/app/utils/credits.py` (`calculate_credits`) and
verification of the specification's claims about it.

The Python source works on `str` with exact `Decimal` arithmetic; we model the
input as `List Char` and every monetary quantity as `ℚ` (all constants in the
source are exact decimals, so `ℚ` reproduces `Decimal` arithmetic exactly).
-/

namespace Credits

/-- ASCII letter test, the `a-zA-Z` part of the regex character classes. -/
def isAsciiLetter (c : Char) : Bool :=
  (97 ≤ c.toNat && c.toNat ≤ 122) || (65 ≤ c.toNat && c.toNat ≤ 90)

/-- Membership in the tokenization class `[a-zA-Z'-]` of `re.findall` (line 49):
ASCII letter, apostrophe (code 39) or hyphen (code 45). -/
def isWordChar (c : Char) : Bool :=
  isAsciiLetter c || c.toNat == 39 || c.toNat == 45

/-- ASCII digit test, the `0-9` part of the palindrome class `[^a-zA-Z0-9]`. -/
def isAsciiDigit (c : Char) : Bool :=
  48 ≤ c.toNat && c.toNat ≤ 57

/-- ASCII alphanumeric: what the palindrome preprocessing (line 93) keeps. -/
def isAsciiAlnum (c : Char) : Bool :=
  isAsciiLetter c || isAsciiDigit c

/-- Per-character ASCII lowercasing: map `A-Z` to `a-z`, leave the rest.
Used for the vowel test below and for the strip-then-fold reading of the
palindrome rule, where only ASCII characters remain to be folded. -/
def toLowerChar (c : Char) : Char :=
  if 65 ≤ c.toNat && c.toNat ≤ 90 then Char.ofNat (c.toNat + 32) else c

/-- Model of Python `str.lower` for one character, as a string. It tracks
exactly the Unicode lowercase mappings whose output contains an ASCII
alphanumeric: `A-Z` map to `a-z`, U+212A (KELVIN SIGN) maps to `k`, and
U+0130 (LATIN CAPITAL LETTER I WITH DOT ABOVE) maps to `i` followed by
U+0307. Every other character's Python lowercase contains no ASCII letter
or digit, so mapping it to itself is indistinguishable once the
`[^a-zA-Z0-9]` strip of line 93 runs. -/
def lowerChar (c : Char) : List Char :=
  if 65 ≤ c.toNat ∧ c.toNat ≤ 90 then [Char.ofNat (c.toNat + 32)]
  else if c.toNat = 8490 then [Char.ofNat 107]
  else if c.toNat = 304 then [Char.ofNat 105, Char.ofNat 775]
  else [c]

/-- Case-insensitive vowel test: `char.lower() in "aeiou"` (line 63). The
ASCII `toLowerChar` is faithful here: the only characters whose Python
lowercase differs from it across the ASCII boundary are U+212A (lowering
to `k`) and U+0130 (lowering to the two-character `i`+U+0307), and neither
result passes the `in "aeiou"` substring test. -/
def isVowelCI (c : Char) : Bool :=
  let l := (toLowerChar c).toNat
  l == 97 || l == 101 || l == 105 || l == 111 || l == 117

/-- Scanner for `re.findall(r"[a-zA-Z'-]+", text)`: at a word character,
emit the maximal run starting there and continue after it; otherwise skip.
The fuel argument (instantiated with the input length in `findWords`) only
makes the recursion structural; it never runs out. -/
def findWordsFuel : Nat → List Char → List (List Char)
  | 0, _ => []
  | _ + 1, [] => []
  | fuel + 1, c :: rest =>
    if isWordChar c then
      (c :: rest.takeWhile isWordChar) :: findWordsFuel fuel (rest.dropWhile isWordChar)
    else
      findWordsFuel fuel rest

/-- Model of `re.findall(r"[a-zA-Z'-]+", text)` (line 49): the list of
maximal runs of word characters, left to right. -/
def findWords (l : List Char) : List (List Char) :=
  findWordsFuel l.length l

/-- Per-word surcharge of the loop body at lines 50-57: `0.1` for length 1-3,
`0.2` for length 4-7, `0.3` for length at least 8, nothing otherwise. -/
def wordCost (w : List Char) : ℚ :=
  if 1 ≤ w.length ∧ w.length ≤ 3 then 1/10
  else if 4 ≤ w.length ∧ w.length ≤ 7 then 2/10
  else if 8 ≤ w.length then 3/10
  else 0

/-- The accumulating loop `word_length_cost += ...` over the word list
(lines 50-57). -/
def wordLengthLoop : List (List Char) → ℚ → ℚ
  | [], acc => acc
  | w :: ws, acc => wordLengthLoop ws (acc + wordCost w)

/-- The `word_length_cost` computed by the source for input `s`. -/
def word_length_cost (s : List Char) : ℚ :=
  wordLengthLoop (findWords s) 0

/-- The accumulating loop over `enumerate(text, start=1)` at lines 62-64,
parameterized by the 1-based position of the first remaining character. -/
def thirdVowelLoop : Nat → List Char → ℚ
  | _, [] => 0
  | i, c :: rest =>
    (if i % 3 == 0 && isVowelCI c then 3/10 else 0) + thirdVowelLoop (i + 1) rest

/-- The `third_vowel_cost` computed by the source for input `s`. -/
def third_vowel_cost (s : List Char) : ℚ :=
  thirdVowelLoop 1 s

/-- The `base_cost` constant (line 18). -/
def base_cost : ℚ := 1

/-- The `char_count_cost` of lines 41-42: `0.05` per character. -/
def char_count_cost (s : List Char) : ℚ :=
  (5 / 100) * (s.length : ℚ)

/-- The `length_penalty` of lines 68-69: `5` once the length exceeds 100. -/
def length_penalty (s : List Char) : ℚ :=
  if s.length > 100 then 5 else 0

/-- The `unique_word_bonus` of lines 75-76: `-2` when
`len(set(words)) == len(words) and words`; the distinct count of the Python
`set` is modelled by `List.dedup`. -/
def unique_word_bonus (s : List Char) : ℚ :=
  let ws := findWords s
  if ws.dedup.length == ws.length && !ws.isEmpty then -2 else 0

/-- The palindrome preprocessing of line 93:
`re.sub(r"[^a-zA-Z0-9]", "", text.lower())` — lower-case the whole text
first (Python `str.lower`, modelled by `lowerChar`), then drop every
character that is not an ASCII letter or digit. -/
def processedMessage (s : List Char) : List Char :=
  (s.flatMap lowerChar).filter isAsciiAlnum

/-- The processed message as the specification words it: strip every
character that is not an ASCII letter or digit from the raw text first,
then case-fold the remainder (which is then pure ASCII). This is the
strip-then-fold reading, to be compared with the source's
fold-then-strip `processedMessage`. -/
def processedSpecOrder (s : List Char) : List Char :=
  (s.filter isAsciiAlnum).map toLowerChar

/-- The palindrome condition of line 94: the processed message equals its own
reversal and is non-empty. -/
def isPalindromeMsg (s : List Char) : Bool :=
  let p := processedMessage s
  p == p.reverse && !p.isEmpty

/-- Model of `Decimal.quantize(Decimal(".01"), rounding=ROUND_HALF_UP)`
(lines 100-115): round to 2 decimal places, ties away from zero. -/
def roundHalfUp2 (q : ℚ) : ℚ :=
  if q < 0 then -((((-q) * 100 + 1/2).floor : ℚ) / 100)
  else ((q * 100 + 1/2).floor : ℚ) / 100

/-- The cost breakdown dictionary returned by `calculate_credits`. -/
structure Breakdown where
  credits_used : ℚ
  base_cost : ℚ
  char_count_cost : ℚ
  word_length_cost : ℚ
  third_vowel_cost : ℚ
  length_penalty : ℚ
  unique_word_bonus : ℚ
  palindrome_multiplier : ℚ
deriving Repr, DecidableEq

/-- The breakdown returned by the early `if text == ""` branch (lines 27-38):
every surcharge still holds its initial zero, `credits_used = base_cost = 1`,
and nothing is quantized. -/
def emptyBreakdown : Breakdown :=
  { credits_used := 1
    base_cost := 1
    char_count_cost := 0
    word_length_cost := 0
    third_vowel_cost := 0
    length_penalty := 0
    unique_word_bonus := 0
    palindrome_multiplier := 1 }

/-- The general path of `calculate_credits` (lines 40-127), i.e. everything
after the empty-string early return, applied to an arbitrary input. -/
def calculateCreditsGeneral (s : List Char) : Breakdown :=
  let ccc := char_count_cost s
  let wlc := word_length_cost s
  let tvc := third_vowel_cost s
  let lp := length_penalty s
  let uwb := unique_word_bonus s
  let credits0 := base_cost + ccc + wlc + tvc + lp + uwb
  let credits1 := max credits0 1
  let pal := isPalindromeMsg s
  let mult : ℚ := if pal then 2 else 1
  let credits2 := if pal then credits1 * 2 else credits1
  { credits_used := roundHalfUp2 credits2
    base_cost := base_cost
    char_count_cost := roundHalfUp2 ccc
    word_length_cost := roundHalfUp2 wlc
    third_vowel_cost := roundHalfUp2 tvc
    length_penalty := roundHalfUp2 lp
    unique_word_bonus := roundHalfUp2 uwb
    palindrome_multiplier := mult }

/-- The full `calculate_credits` of `src/app/utils/credits.py`: early return
on the empty string, otherwise the general path. -/
def calculate_credits (s : List Char) : Breakdown :=
  if s.isEmpty then emptyBreakdown else calculateCreditsGeneral s

/-- The `credits` value of lines 79-86: the sum of the six pre-multiplier
terms. -/
def subtotal (s : List Char) : ℚ :=
  base_cost + char_count_cost s + word_length_cost s + third_vowel_cost s +
    length_penalty s + unique_word_bonus s

/-- The `credits` value after the floor at line 89: `max(credits, 1)`. -/
def flooredSubtotal (s : List Char) : ℚ :=
  max (subtotal s) 1

/-- The `palindrome_multiplier` value at return time: `2` when the
palindrome condition of line 94 holds, else the initial `1`. -/
def palindromeMultiplier (s : List Char) : ℚ :=
  if isPalindromeMsg s then 2 else 1

/-- The exact (pre-rounding) value held by `credits_used` at line 98, for
both the early-return path and the general path. -/
def creditsPre (s : List Char) : ℚ :=
  if s.isEmpty then 1
  else if isPalindromeMsg s then flooredSubtotal s * 2 else flooredSubtotal s

/-- The count of 1-based positions hit by the third-vowel rule, starting the
position counter at `n`. -/
def vowelHitsFrom (n : Nat) : List Char → Nat
  | [] => 0
  | c :: rest =>
    (if n % 3 == 0 && isVowelCI c then 1 else 0) + vowelHitsFrom (n + 1) rest

/-- The function with the outcome of the palindrome check at line 94 forced
to a given value: used to state that the palindrome step influences nothing
but `credits_used` and `palindrome_multiplier`. -/
def calculateCreditsForced (pal : Bool) (s : List Char) : Breakdown :=
  if s.isEmpty then emptyBreakdown
  else
    let ccc := char_count_cost s
    let wlc := word_length_cost s
    let tvc := third_vowel_cost s
    let lp := length_penalty s
    let uwb := unique_word_bonus s
    let credits0 := base_cost + ccc + wlc + tvc + lp + uwb
    let credits1 := max credits0 1
    let mult : ℚ := if pal then 2 else 1
    let credits2 := if pal then credits1 * 2 else credits1
    { credits_used := roundHalfUp2 credits2
      base_cost := base_cost
      char_count_cost := roundHalfUp2 ccc
      word_length_cost := roundHalfUp2 wlc
      third_vowel_cost := roundHalfUp2 tvc
      length_penalty := roundHalfUp2 lp
      unique_word_bonus := roundHalfUp2 uwb
      palindrome_multiplier := mult }

/-- A structurally valid cost breakdown: base cost `1`, multiplier `1` or
`2`, total at least `1`, non-negative surcharges, bonus `0` or `-2`. -/
def WellFormedBreakdown (b : Breakdown) : Prop :=
  b.base_cost = 1 ∧ (b.palindrome_multiplier = 1 ∨ b.palindrome_multiplier = 2) ∧
    1 ≤ b.credits_used ∧ 0 ≤ b.char_count_cost ∧ 0 ≤ b.word_length_cost ∧
    0 ≤ b.third_vowel_cost ∧ 0 ≤ b.length_penalty ∧
    (b.unique_word_bonus = 0 ∨ b.unique_word_bonus = -2)

/-! ### Exact-hundredths arithmetic

Every constant in the source is an exact multiple of `0.01`, so every
intermediate `Decimal` value is an integer number of hundredths and the final
`quantize(Decimal(".01"))` is the identity. `Hund q` states that `q` is an
integer number of hundredths. -/

/-- Multiples of `1/100`: the values representable with 2 fractional decimal
digits. -/
def Hund (q : ℚ) : Prop := ∃ z : ℤ, q = (z : ℚ) / 100

theorem Hund.add {a b : ℚ} (ha : Hund a) (hb : Hund b) : Hund (a + b) := by
  obtain ⟨x, rfl⟩ := ha
  obtain ⟨y, rfl⟩ := hb
  exact ⟨x + y, by push_cast; ring⟩

theorem Hund.max {a b : ℚ} (ha : Hund a) (hb : Hund b) : Hund (max a b) := by
  rcases le_total a b with h | h
  · rwa [max_eq_right h]
  · rwa [max_eq_left h]

theorem Hund.double {a : ℚ} (ha : Hund a) : Hund (a * 2) := by
  obtain ⟨x, rfl⟩ := ha
  exact ⟨x * 2, by push_cast; ring⟩

theorem hund_int (z : ℤ) : Hund (z : ℚ) :=
  ⟨z * 100, by push_cast; ring⟩

theorem hund_zero : Hund 0 := ⟨0, by norm_num⟩

theorem hund_one : Hund 1 := ⟨100, by norm_num⟩

theorem hund_ite {c : Prop} [Decidable c] {a b : ℚ} (ha : Hund a)
    (hb : Hund b) : Hund (if c then a else b) := by
  split <;> assumption

theorem hund_base_cost : Hund base_cost := hund_one

theorem hund_char_count_cost (s : List Char) : Hund (char_count_cost s) := by
  refine ⟨5 * s.length, ?_⟩
  unfold char_count_cost
  push_cast
  ring

theorem hund_wordCost (w : List Char) : Hund (wordCost w) := by
  unfold wordCost
  refine hund_ite ⟨10, by norm_num⟩ (hund_ite ⟨20, by norm_num⟩
    (hund_ite ⟨30, by norm_num⟩ hund_zero))

theorem hund_wordLengthLoop (ws : List (List Char)) {a : ℚ} (ha : Hund a) :
    Hund (wordLengthLoop ws a) := by
  induction ws generalizing a with
  | nil => exact ha
  | cons w ws ih => exact ih (ha.add (hund_wordCost w))

theorem hund_word_length_cost (s : List Char) : Hund (word_length_cost s) :=
  hund_wordLengthLoop _ hund_zero

theorem hund_thirdVowelLoop (n : Nat) (s : List Char) :
    Hund (thirdVowelLoop n s) := by
  induction s generalizing n with
  | nil => exact hund_zero
  | cons c rest ih =>
    exact (hund_ite ⟨30, by norm_num⟩ hund_zero).add (ih (n + 1))

theorem hund_third_vowel_cost (s : List Char) : Hund (third_vowel_cost s) :=
  hund_thirdVowelLoop 1 s

theorem hund_length_penalty (s : List Char) : Hund (length_penalty s) :=
  hund_ite ⟨500, by norm_num⟩ hund_zero

theorem hund_unique_word_bonus (s : List Char) : Hund (unique_word_bonus s) :=
  hund_ite ⟨-200, by norm_num⟩ hund_zero

theorem hund_subtotal (s : List Char) : Hund (subtotal s) :=
  ((((hund_base_cost.add (hund_char_count_cost s)).add
    (hund_word_length_cost s)).add (hund_third_vowel_cost s)).add
    (hund_length_penalty s)).add (hund_unique_word_bonus s)

theorem hund_flooredSubtotal (s : List Char) : Hund (flooredSubtotal s) :=
  (hund_subtotal s).max hund_one

theorem hund_creditsPre (s : List Char) : Hund (creditsPre s) :=
  hund_ite hund_one
    (hund_ite (hund_flooredSubtotal s).double (hund_flooredSubtotal s))

theorem ratFloor_eq_intFloor (q : ℚ) : q.floor = ⌊q⌋ := by
  rw [Rat.floor_def', Rat.floor_def]

/-- Rounding to 2 decimal places is the identity on exact hundredths. -/
theorem roundHalfUp2_hund {q : ℚ} (h : Hund q) : roundHalfUp2 q = q := by
  obtain ⟨z, rfl⟩ := h
  have h100 : ((z : ℚ) / 100) * 100 = (z : ℚ) := by
    field_simp
  have hhalf : ⌊(1 : ℚ) / 2⌋ = 0 := by
    rw [Int.floor_eq_zero_iff]
    constructor <;> norm_num
  unfold roundHalfUp2
  split
  · have hneg : (-((z : ℚ) / 100)) * 100 = ((-z : ℤ) : ℚ) := by
      push_cast
      linarith [h100]
    rw [hneg, ratFloor_eq_intFloor, Int.floor_int_add, hhalf]
    push_cast
    ring
  · rw [h100, ratFloor_eq_intFloor, Int.floor_int_add, hhalf]
    push_cast
    ring

/-! ### Evaluation lemmas connecting the returned breakdown to the
intermediate quantities -/

theorem char_count_cost_nil : char_count_cost [] = 0 := by
  unfold char_count_cost
  norm_num

theorem findWordsFuel_nil (n : Nat) : findWordsFuel n [] = [] := by
  cases n <;> rfl

theorem findWords_nil : findWords [] = [] := rfl

theorem word_length_cost_nil : word_length_cost [] = 0 := by
  unfold word_length_cost
  rw [findWords_nil]
  rfl

theorem third_vowel_cost_nil : third_vowel_cost [] = 0 := rfl

theorem length_penalty_nil : length_penalty [] = 0 := by
  unfold length_penalty
  norm_num

theorem unique_word_bonus_nil : unique_word_bonus [] = 0 := by
  unfold unique_word_bonus
  rw [findWords_nil]
  rfl

theorem isPalindromeMsg_nil : isPalindromeMsg [] = false := rfl

theorem subtotal_nil : subtotal [] = 1 := by
  unfold subtotal
  rw [char_count_cost_nil, word_length_cost_nil, third_vowel_cost_nil,
    length_penalty_nil, unique_word_bonus_nil]
  unfold base_cost
  norm_num

/-- Every field of the returned dictionary, expressed through the named
intermediate quantities, uniformly over both paths of the function. -/
theorem calculate_credits_eq (s : List Char) :
    calculate_credits s =
      { credits_used := roundHalfUp2 (creditsPre s)
        base_cost := base_cost
        char_count_cost := roundHalfUp2 (char_count_cost s)
        word_length_cost := roundHalfUp2 (word_length_cost s)
        third_vowel_cost := roundHalfUp2 (third_vowel_cost s)
        length_penalty := roundHalfUp2 (length_penalty s)
        unique_word_bonus := roundHalfUp2 (unique_word_bonus s)
        palindrome_multiplier := palindromeMultiplier s } := by
  by_cases h : s = []
  · subst h
    unfold calculate_credits
    simp only [List.isEmpty_nil, if_true]
    unfold emptyBreakdown creditsPre palindromeMultiplier
    rw [char_count_cost_nil, word_length_cost_nil, third_vowel_cost_nil,
      length_penalty_nil, unique_word_bonus_nil, isPalindromeMsg_nil]
    simp only [List.isEmpty_nil, if_true, Bool.false_eq_true, if_false]
    rw [roundHalfUp2_hund hund_one, roundHalfUp2_hund hund_zero]
    unfold base_cost
    rfl
  · have hne : s.isEmpty = false := by
      simpa [List.isEmpty_iff] using h
    unfold calculate_credits calculateCreditsGeneral
    rw [hne]
    unfold creditsPre flooredSubtotal subtotal palindromeMultiplier
    rw [hne]
    simp only [Bool.false_eq_true, if_false]

theorem one_le_flooredSubtotal (s : List Char) : 1 ≤ flooredSubtotal s :=
  le_max_right _ _

theorem one_le_creditsPre (s : List Char) : 1 ≤ creditsPre s := by
  unfold creditsPre
  split
  · exact le_refl 1
  · split
    · nlinarith [one_le_flooredSubtotal s]
    · exact one_le_flooredSubtotal s

theorem two_le_creditsPre_of_pal (s : List Char)
    (h : isPalindromeMsg s = true) : 2 ≤ creditsPre s := by
  have hs : s.isEmpty = false := by
    rcases s with _ | ⟨c, rest⟩
    · exact absurd h (by rw [isPalindromeMsg_nil]; simp)
    · rfl
  unfold creditsPre
  rw [hs, h]
  simp only [Bool.false_eq_true, if_false, if_true]
  nlinarith [one_le_flooredSubtotal s]

/-! ### The accumulating loops as sums and counts -/

theorem wordLengthLoop_eq (ws : List (List Char)) (a : ℚ) :
    wordLengthLoop ws a = a + (ws.map wordCost).sum := by
  induction ws generalizing a with
  | nil => simp [wordLengthLoop]
  | cons w ws ih =>
    rw [wordLengthLoop, ih]
    simp
    ring

theorem word_length_cost_eq (s : List Char) :
    word_length_cost s = ((findWords s).map wordCost).sum := by
  rw [word_length_cost, wordLengthLoop_eq, zero_add]

theorem thirdVowelLoop_eq (s : List Char) (n : Nat) :
    thirdVowelLoop n s = (3 / 10 : ℚ) * (vowelHitsFrom n s : ℚ) := by
  induction s generalizing n with
  | nil => simp [thirdVowelLoop, vowelHitsFrom]
  | cons c rest ih =>
    rw [thirdVowelLoop, vowelHitsFrom, ih]
    by_cases h : (n % 3 == 0 && isVowelCI c) = true
    · rw [if_pos h, if_pos h]
      push_cast
      ring
    · rw [if_neg h, if_neg h]
      push_cast
      ring

theorem third_vowel_cost_eq (s : List Char) :
    third_vowel_cost s = (3 / 10 : ℚ) * (vowelHitsFrom 1 s : ℚ) :=
  thirdVowelLoop_eq s 1

/-! ### The scanner `findWords` returns exactly the non-empty chunks of the
input split at the non-word characters, i.e. the maximal word-character
runs -/

theorem dropWhile_head_false (q : Char → Bool) :
    ∀ (l : List Char) (x : Char) (r : List Char),
      l.dropWhile q = x :: r → q x = false := by
  intro l
  induction l with
  | nil =>
    intro x r h
    simp [List.dropWhile] at h
  | cons c rest ih =>
    intro x r h
    rw [List.dropWhile_cons] at h
    by_cases hc : q c = true
    · rw [if_pos hc] at h
      exact ih x r h
    · rw [if_neg hc] at h
      obtain ⟨rfl, -⟩ := List.cons.injEq .. ▸ h
      exact Bool.not_eq_true _ ▸ hc

theorem splitOnP_words_decomp (l : List Char) :
    (l.splitOnP fun c => !isWordChar c) =
      l.takeWhile isWordChar ::
        (match l.dropWhile isWordChar with
         | [] => []
         | _ :: r => r.splitOnP fun c => !isWordChar c) := by
  induction l with
  | nil => rfl
  | cons c rest ih =>
    rw [List.splitOnP_cons, List.takeWhile_cons, List.dropWhile_cons]
    by_cases hc : isWordChar c = true
    · simp only [hc, Bool.not_true, Bool.false_eq_true, if_false, if_true]
      rw [ih]
      rfl
    · have hc' : isWordChar c = false := Bool.not_eq_true _ ▸ hc
      simp only [hc', Bool.not_false, if_true, Bool.false_eq_true, if_false]

theorem findWordsFuel_eq_splitOnP (n : Nat) :
    ∀ l : List Char, l.length ≤ n →
      findWordsFuel n l =
        (l.splitOnP fun c => !isWordChar c).filter (fun w => !w.isEmpty) := by
  induction n with
  | zero =>
    intro l hl
    have hnil : l = [] := List.length_eq_zero.mp (Nat.le_zero.mp hl)
    subst hnil
    rfl
  | succ n ih =>
    intro l hl
    match l with
    | [] => rfl
    | c :: rest =>
      have hrest : rest.length ≤ n := by
        simp only [List.length_cons] at hl
        omega
      rw [List.splitOnP_cons]
      by_cases hc : isWordChar c = true
      · rw [if_neg (by simp [hc]), findWordsFuel, if_pos hc,
          splitOnP_words_decomp]
        simp only [List.modifyHead, List.filter_cons, List.isEmpty_cons,
          Bool.not_false, if_true]
        congr 1
        have hdrop : (rest.dropWhile isWordChar).length ≤ rest.length :=
          (List.dropWhile_sublist isWordChar).length_le
        cases hd : rest.dropWhile isWordChar with
        | nil =>
          rw [findWordsFuel_nil]
          rfl
        | cons x r =>
          have hx : isWordChar x = false := dropWhile_head_false _ rest x r hd
          have hlen : (x :: r).length ≤ n := le_trans (hd ▸ hdrop) hrest
          rw [ih (x :: r) hlen, List.splitOnP_cons, if_pos (by simp [hx]),
            List.filter_cons]
          simp only [List.isEmpty_nil, Bool.not_true, Bool.false_eq_true,
            if_false]
      · have hc' : isWordChar c = false := Bool.not_eq_true _ ▸ hc
        rw [if_pos (by simp [hc']), findWordsFuel, if_neg (by simp [hc'])]
        rw [ih rest hrest, List.filter_cons]
        simp only [List.isEmpty_nil, Bool.not_true, Bool.false_eq_true,
          if_false]

theorem findWords_eq_splitOnP (l : List Char) :
    findWords l =
      (l.splitOnP fun c => !isWordChar c).filter (fun w => !w.isEmpty) :=
  findWordsFuel_eq_splitOnP l.length l (le_refl _)

/-! ### Lowercasing commutes with the ASCII-alphanumeric filter, so the
palindrome preprocessing can equivalently strip first and case-fold after -/

theorem charOfNat_toNat {n : Nat} (h : n < 55296) : (Char.ofNat n).toNat = n := by
  have hv : n.isValidChar := Or.inl h
  simp [Char.ofNat, Char.toNat, hv, Char.ofNatAux, UInt32.toNat,
    BitVec.toNat_ofNatLt]

theorem toLowerChar_toNat (c : Char) :
    (toLowerChar c).toNat =
      if 65 ≤ c.toNat ∧ c.toNat ≤ 90 then c.toNat + 32 else c.toNat := by
  unfold toLowerChar
  by_cases h : 65 ≤ c.toNat ∧ c.toNat ≤ 90
  · rw [if_pos (by simpa using h), if_pos h, charOfNat_toNat (by omega)]
  · rw [if_neg (by simpa using h), if_neg h]

theorem isAsciiAlnum_toLowerChar (c : Char) :
    isAsciiAlnum (toLowerChar c) = isAsciiAlnum c := by
  rw [Bool.eq_iff_iff]
  unfold isAsciiAlnum isAsciiLetter isAsciiDigit
  simp only [Bool.or_eq_true, Bool.and_eq_true, decide_eq_true_eq]
  rw [toLowerChar_toNat]
  split <;> omega

theorem lowerChar_eq_single (c : Char)
    (h : c.toNat ≠ 8490 ∧ c.toNat ≠ 304) :
    lowerChar c = [toLowerChar c] := by
  unfold lowerChar toLowerChar
  by_cases h65 : 65 ≤ c.toNat ∧ c.toNat ≤ 90
  · rw [if_pos h65, if_pos (by simpa using h65)]
  · rw [if_neg h65, if_neg h.1, if_neg h.2, if_neg (by simpa using h65)]

theorem processedMessage_of_no_special (s : List Char)
    (h : ∀ c ∈ s, c.toNat ≠ 8490 ∧ c.toNat ≠ 304) :
    processedMessage s = processedSpecOrder s := by
  unfold processedMessage processedSpecOrder
  have hmap : s.flatMap lowerChar = s.map toLowerChar := by
    induction s with
    | nil => rfl
    | cons c rest ih =>
      rw [List.flatMap_cons, List.map_cons,
        lowerChar_eq_single c (h c (by simp)), ih fun x hx => h x (by simp [hx])]
      rfl
  rw [hmap, List.filter_map]
  congr 1
  refine List.filter_congr fun c _ => ?_
  simp only [Function.comp_apply]
  exact isAsciiAlnum_toLowerChar c

/-! ### The distinct-count test of the unique-word bonus is the no-duplicate
test -/

theorem dedup_length_eq_iff (ws : List (List Char)) :
    ws.dedup.length = ws.length ↔ ws.Nodup := by
  constructor
  · intro h
    rw [← List.dedup_eq_self]
    exact (List.dedup_sublist ws).eq_of_length h
  · intro h
    rw [List.dedup_eq_self.mpr h]

theorem unique_word_bonus_iff (s : List Char) :
    unique_word_bonus s = -2 ↔ (findWords s ≠ [] ∧ (findWords s).Nodup) := by
  unfold unique_word_bonus
  by_cases h : ((findWords s).dedup.length == (findWords s).length
      && !(findWords s).isEmpty) = true
  · rw [if_pos h]
    simp only [Bool.and_eq_true, beq_iff_eq, Bool.not_eq_true'] at h
    obtain ⟨h1, h2⟩ := h
    have hne : findWords s ≠ [] := by
      intro hl
      rw [hl] at h2
      simp at h2
    exact iff_of_true rfl ⟨hne, (dedup_length_eq_iff _).mp h1⟩
  · rw [if_neg h]
    simp only [Bool.and_eq_true, beq_iff_eq, Bool.not_eq_true', not_and] at h
    constructor
    · intro habs
      exact absurd habs (by norm_num)
    · intro ⟨h2, h1⟩
      have hcon := h ((dedup_length_eq_iff _).mpr h1)
      rcases hl : findWords s with _ | ⟨w, ws⟩
      · exact absurd hl h2
      · rw [hl] at hcon
        simp at hcon

theorem unique_word_bonus_cases (s : List Char) :
    unique_word_bonus s = 0 ∨ unique_word_bonus s = -2 := by
  unfold unique_word_bonus
  by_cases h : ((findWords s).dedup.length == (findWords s).length
      && !(findWords s).isEmpty) = true
  · rw [if_pos h]
    exact Or.inr rfl
  · rw [if_neg h]
    exact Or.inl rfl

/-! ### The palindrome flag only reroutes `credits_used` and the
multiplier -/

theorem calculate_credits_forced (s : List Char) :
    calculate_credits s = calculateCreditsForced (isPalindromeMsg s) s := by
  unfold calculate_credits calculateCreditsForced calculateCreditsGeneral
  rfl

/-! ### Assorted small helpers for the claims -/

theorem isPalindromeMsg_iff (s : List Char) :
    isPalindromeMsg s = true ↔
      processedMessage s ≠ [] ∧
        processedMessage s = (processedMessage s).reverse := by
  unfold isPalindromeMsg
  rw [Bool.and_eq_true, beq_iff_eq, Bool.not_eq_true', List.isEmpty_eq_false]
  exact and_comm

theorem creditsPre_of_ne (s : List Char) (h : s.isEmpty = false) :
    creditsPre s =
      if isPalindromeMsg s then flooredSubtotal s * 2 else flooredSubtotal s := by
  unfold creditsPre
  rw [h]
  simp

theorem unique_word_bonus_eq_zero (s : List Char)
    (h : ¬(findWords s ≠ [] ∧ (findWords s).Nodup)) :
    unique_word_bonus s = 0 := by
  rcases unique_word_bonus_cases s with h0 | h2
  · exact h0
  · exact absurd ((unique_word_bonus_iff s).mp h2) h

theorem wordCost_nonneg (w : List Char) : 0 ≤ wordCost w := by
  unfold wordCost
  split
  · norm_num
  · split
    · norm_num
    · split <;> norm_num

theorem word_length_cost_nonneg (s : List Char) : 0 ≤ word_length_cost s := by
  rw [word_length_cost_eq]
  refine List.sum_nonneg fun q hq => ?_
  obtain ⟨w, -, rfl⟩ := List.mem_map.mp hq
  exact wordCost_nonneg w

theorem char_count_cost_nonneg (s : List Char) : 0 ≤ char_count_cost s := by
  unfold char_count_cost
  positivity

theorem third_vowel_cost_nonneg (s : List Char) : 0 ≤ third_vowel_cost s := by
  rw [third_vowel_cost_eq]
  positivity

theorem length_penalty_nonneg (s : List Char) : 0 ≤ length_penalty s := by
  unfold length_penalty
  split <;> norm_num

theorem vowelHitsFrom_eq_enumFrom (s : List Char) (n : Nat) :
    vowelHitsFrom n s =
      ((s.enumFrom n).filter fun q => q.1 % 3 == 0 && isVowelCI q.2).length := by
  induction s generalizing n with
  | nil => rfl
  | cons c rest ih =>
    rw [vowelHitsFrom, List.enumFrom_cons, List.filter_cons, ih (n + 1)]
    by_cases h : (n % 3 == 0 && isVowelCI c) = true
    · rw [if_pos h, if_pos (by simpa using h), List.length_cons]
      omega
    · rw [if_neg h, if_neg (by simpa using h)]
      omega

/-! ### The claims -/

/-- Claim C1 as amended: for every input string, the pre-rounding value of
`credits_used` equals the palindrome multiplier times `max 1 subtotal` (the
floor of 1 is applied before the multiplier), the returned `credits_used`
is that value rounded; consequently `credits_used ≥ 1` always, and
`credits_used ≥ 2` whenever the palindrome condition computed by the code
(case-fold with `str.lower` first, then strip non-ASCII-alphanumerics)
holds. The claim's own strip-then-fold reading of the condition fails: see
the counterexample below. -/
theorem claim_C1 (s : List Char) :
    creditsPre s = palindromeMultiplier s * max 1 (subtotal s) ∧
    (calculate_credits s).credits_used = roundHalfUp2 (creditsPre s) ∧
    1 ≤ (calculate_credits s).credits_used ∧
    (isPalindromeMsg s = true → 2 ≤ (calculate_credits s).credits_used) := by
  have hfield : (calculate_credits s).credits_used =
      roundHalfUp2 (creditsPre s) := by
    rw [calculate_credits_eq]
  have hid : roundHalfUp2 (creditsPre s) = creditsPre s :=
    roundHalfUp2_hund (hund_creditsPre s)
  refine ⟨?_, hfield, ?_, ?_⟩
  · by_cases h : s.isEmpty = true
    · have hs : s = [] := List.isEmpty_iff.mp h
      subst hs
      unfold creditsPre palindromeMultiplier
      rw [isPalindromeMsg_nil, subtotal_nil]
      simp
    · have h' : s.isEmpty = false := Bool.not_eq_true _ ▸ h
      rw [creditsPre_of_ne s h']
      unfold palindromeMultiplier flooredSubtotal
      by_cases hp : isPalindromeMsg s = true
      · rw [if_pos hp, if_pos hp, max_comm]
        ring
      · rw [if_neg hp, if_neg hp, max_comm]
        ring
  · rw [hfield, hid]
    exact one_le_creditsPre s
  · intro hp
    rw [hfield, hid]
    exact two_le_creditsPre_of_pal s hp

/-- Witness for C1 at the palindrome input `"aba"`. -/
theorem claim_C1_witness :
    isPalindromeMsg ("aba".data) = true ∧
      2 ≤ (calculate_credits ("aba".data)).credits_used :=
  ⟨by decide, (claim_C1 ("aba".data)).2.2.2 (by decide)⟩

/-- Counterexample to claim C1 as stated: at `'a'` followed by U+212A
(KELVIN SIGN) the strip-then-fold palindrome condition used by the claim
set holds (it yields `"a"`), yet the program returns `credits_used = 1.00`,
because `str.lower` turns U+212A into an ASCII `k` before the strip and the
processed message `"ak"` is not a palindrome. -/
theorem claim_C1_counterexample :
    (processedSpecOrder ['a', Char.ofNat 8490] ≠ [] ∧
      processedSpecOrder ['a', Char.ofNat 8490] =
        (processedSpecOrder ['a', Char.ofNat 8490]).reverse) ∧
    (calculate_credits ['a', Char.ofNat 8490]).credits_used = 1 ∧
    ¬(2 ≤ (calculate_credits ['a', Char.ofNat 8490]).credits_used) := by
  have hone : (calculate_credits ['a', Char.ofNat 8490]).credits_used = 1 := by
    have h1 : char_count_cost ['a', Char.ofNat 8490] = 1 / 10 := by
      unfold char_count_cost
      simp
      norm_num
    have h2 : word_length_cost ['a', Char.ofNat 8490] = 1 / 10 := by
      rw [word_length_cost_eq,
        show findWords ['a', Char.ofNat 8490] = [['a']] from by decide]
      simp [wordCost]
    have h3 : third_vowel_cost ['a', Char.ofNat 8490] = 0 := by
      rw [third_vowel_cost_eq,
        show vowelHitsFrom 1 ['a', Char.ofNat 8490] = 0 from by decide]
      norm_num
    have h4 : length_penalty ['a', Char.ofNat 8490] = 0 := by
      unfold length_penalty
      simp
    have h5 : unique_word_bonus ['a', Char.ofNat 8490] = -2 :=
      (unique_word_bonus_iff _).mpr ⟨by decide, by decide⟩
    have hsub : subtotal ['a', Char.ofNat 8490] = -4 / 5 := by
      unfold subtotal
      rw [h1, h2, h3, h4, h5]
      unfold base_cost
      norm_num
    have hfloor : flooredSubtotal ['a', Char.ofNat 8490] = 1 := by
      unfold flooredSubtotal
      rw [hsub]
      exact max_eq_right (by norm_num)
    have hpre : creditsPre ['a', Char.ofNat 8490] = 1 := by
      rw [creditsPre_of_ne _ (by decide), if_neg (by decide), hfloor]
    rw [calculate_credits_eq, hpre, roundHalfUp2_hund hund_one]
  refine ⟨⟨by decide, by decide⟩, hone, ?_⟩
  rw [hone]
  norm_num

/-- Claim C2 as amended: for every non-empty input, the palindrome check
case-folds the raw text with Python `str.lower` first and then strips
every character that is not an ASCII letter or digit — not the other order;
the two orders agree whenever the text contains neither U+212A nor U+0130.
When the processed message is non-empty and equal to its own reversal the
multiplier is 2 and `credits_used` is `floored × 2`, otherwise the
multiplier is 1 and `credits_used` is `floored`. -/
theorem claim_C2 (s : List Char) (hne : s ≠ []) :
    processedMessage s = (s.flatMap lowerChar).filter isAsciiAlnum ∧
    ((∀ c ∈ s, c.toNat ≠ 8490 ∧ c.toNat ≠ 304) →
      processedMessage s = processedSpecOrder s) ∧
    ((processedMessage s ≠ [] ∧
        processedMessage s = (processedMessage s).reverse) →
      (calculate_credits s).palindrome_multiplier = 2 ∧
      (calculate_credits s).credits_used = flooredSubtotal s * 2) ∧
    (¬(processedMessage s ≠ [] ∧
        processedMessage s = (processedMessage s).reverse) →
      (calculate_credits s).palindrome_multiplier = 1 ∧
      (calculate_credits s).credits_used = flooredSubtotal s) := by
  have hZ : s.isEmpty = false := List.isEmpty_eq_false.mpr hne
  have hcu : (calculate_credits s).credits_used =
      roundHalfUp2 (creditsPre s) := by
    rw [calculate_credits_eq]
  have hpm : (calculate_credits s).palindrome_multiplier =
      palindromeMultiplier s := by
    rw [calculate_credits_eq]
  refine ⟨rfl, processedMessage_of_no_special s, ?_, ?_⟩
  · intro hp
    have hb : isPalindromeMsg s = true := (isPalindromeMsg_iff s).mpr hp
    constructor
    · rw [hpm]
      unfold palindromeMultiplier
      rw [if_pos hb]
    · rw [hcu, creditsPre_of_ne s hZ, if_pos hb,
        roundHalfUp2_hund ((hund_flooredSubtotal s).double)]
  · intro hp
    have hb : isPalindromeMsg s = false := by
      rcases Bool.eq_false_or_eq_true (isPalindromeMsg s) with h | h
      · exact absurd ((isPalindromeMsg_iff s).mp h) hp
      · exact h
    have hb' : ¬ isPalindromeMsg s = true := by
      rw [hb]
      simp
    constructor
    · rw [hpm]
      unfold palindromeMultiplier
      rw [if_neg hb']
    · rw [hcu, creditsPre_of_ne s hZ, if_neg hb',
        roundHalfUp2_hund (hund_flooredSubtotal s)]

/-- Witness for C2 at the palindrome input `"aba"`. -/
theorem claim_C2_witness :
    (calculate_credits ("aba".data)).palindrome_multiplier = 2 ∧
      (calculate_credits ("aba".data)).credits_used =
        flooredSubtotal ("aba".data) * 2 :=
  (claim_C2 ("aba".data) (by decide)).2.2.1 (by decide)

/-- Counterexample to claim C2 as stated: at the single character U+212A
(KELVIN SIGN) the claim's strip-then-fold rule yields the empty string, so
the claim prescribes multiplier 1; but the program lowers first, obtains
`"k"`, and returns multiplier 2. -/
theorem claim_C2_counterexample :
    ¬(processedSpecOrder [Char.ofNat 8490] ≠ [] ∧
      processedSpecOrder [Char.ofNat 8490] =
        (processedSpecOrder [Char.ofNat 8490]).reverse) ∧
    (calculate_credits [Char.ofNat 8490]).palindrome_multiplier = 2 := by
  constructor
  · intro h
    exact h.1 (by decide)
  · rw [calculate_credits_eq]
    show palindromeMultiplier [Char.ofNat 8490] = 2
    unfold palindromeMultiplier
    rw [if_pos (show isPalindromeMsg [Char.ofNat 8490] = true from by decide)]

/-- C3: the scoring function is total and returns a structurally valid cost
breakdown for every input string, including empty, whitespace-only and
word-free ones. -/
theorem claim_C3 (s : List Char) : WellFormedBreakdown (calculate_credits s) := by
  rw [calculate_credits_eq]
  refine ⟨rfl, ?_, ?_, ?_, ?_, ?_, ?_, ?_⟩
  · unfold palindromeMultiplier
    split
    · exact Or.inr rfl
    · exact Or.inl rfl
  · rw [roundHalfUp2_hund (hund_creditsPre s)]
    exact one_le_creditsPre s
  · rw [roundHalfUp2_hund (hund_char_count_cost s)]
    exact char_count_cost_nonneg s
  · rw [roundHalfUp2_hund (hund_word_length_cost s)]
    exact word_length_cost_nonneg s
  · rw [roundHalfUp2_hund (hund_third_vowel_cost s)]
    exact third_vowel_cost_nonneg s
  · rw [roundHalfUp2_hund (hund_length_penalty s)]
    exact length_penalty_nonneg s
  · rw [roundHalfUp2_hund (hund_unique_word_bonus s)]
    exact unique_word_bonus_cases s

/-- C4: scoring the empty string returns exactly the all-zero breakdown
with `credits_used = base_cost = 1` and multiplier 1, through the early
return that precedes the palindrome check. -/
theorem claim_C4 :
    calculate_credits ([] : List Char) =
      { credits_used := 1, base_cost := 1, char_count_cost := 0,
        word_length_cost := 0, third_vowel_cost := 0, length_penalty := 0,
        unique_word_bonus := 0, palindrome_multiplier := 1 } := rfl

/-- C5: the tokenized words are exactly the non-empty chunks obtained by
splitting the raw text at the characters outside `[A-Za-z'-]`, i.e. the
maximal runs of that class, and the returned `word_length_cost` is the sum
over these words of the per-word length-bucket surcharge. -/
theorem claim_C5 (s : List Char) :
    findWords s =
      (s.splitOnP fun c => !isWordChar c).filter (fun w => !w.isEmpty) ∧
    (calculate_credits s).word_length_cost = ((findWords s).map wordCost).sum := by
  refine ⟨findWords_eq_splitOnP s, ?_⟩
  rw [calculate_credits_eq, roundHalfUp2_hund (hund_word_length_cost s)]
  exact word_length_cost_eq s

/-- C6: the returned `unique_word_bonus` is `-2` exactly when the word list
is non-empty and duplicate-free under case-sensitive comparison, and `0`
otherwise; in particular `"cat Cat"` receives the bonus, `"cat cat"` does
not, and an input with no tokenized words does not. -/
theorem claim_C6 :
    (∀ s : List Char,
      ((calculate_credits s).unique_word_bonus = -2 ↔
        findWords s ≠ [] ∧ (findWords s).Nodup) ∧
      ((calculate_credits s).unique_word_bonus = -2 ∨
        (calculate_credits s).unique_word_bonus = 0)) ∧
    (calculate_credits ("cat Cat".data)).unique_word_bonus = -2 ∧
    (calculate_credits ("cat cat".data)).unique_word_bonus = 0 ∧
    (calculate_credits ("12 34".data)).unique_word_bonus = 0 := by
  have key : ∀ s : List Char,
      (calculate_credits s).unique_word_bonus = unique_word_bonus s := by
    intro s
    rw [calculate_credits_eq, roundHalfUp2_hund (hund_unique_word_bonus s)]
  refine ⟨fun s => ⟨?_, ?_⟩, ?_, ?_, ?_⟩
  · rw [key s]
    exact unique_word_bonus_iff s
  · rw [key s]
    exact (unique_word_bonus_cases s).symm
  · rw [key]
    exact (unique_word_bonus_iff _).mpr ⟨by decide, by decide⟩
  · rw [key]
    exact unique_word_bonus_eq_zero _ (by decide)
  · rw [key]
    exact unique_word_bonus_eq_zero _ (by decide)

/-- C7: the returned `third_vowel_cost` is `0.3` times the number of
1-based positions in the raw text that are multiples of 3 and hold a
case-folded vowel; in particular it is `0.30` for `"aaa"`. -/
theorem claim_C7 :
    (∀ s : List Char,
      (calculate_credits s).third_vowel_cost =
        (3 / 10 : ℚ) *
          (((s.enumFrom 1).filter
              fun q => q.1 % 3 == 0 && isVowelCI q.2).length : ℚ)) ∧
    (calculate_credits ("aaa".data)).third_vowel_cost = 3 / 10 := by
  have key : ∀ s : List Char,
      (calculate_credits s).third_vowel_cost =
        (3 / 10 : ℚ) * (vowelHitsFrom 1 s : ℚ) := by
    intro s
    rw [calculate_credits_eq, roundHalfUp2_hund (hund_third_vowel_cost s),
      third_vowel_cost_eq]
  constructor
  · intro s
    rw [key s, vowelHitsFrom_eq_enumFrom]
  · rw [key, show vowelHitsFrom 1 ("aaa".data) = 1 from by decide]
    norm_num

/-- C8: every rounded monetary output field is an exact multiple of `0.01`
(at most 2 fractional digits) and equals its pre-rounding exact value
rounded half-up to 2 decimal places. -/
theorem claim_C8 (s : List Char) :
    ((∃ z : ℤ, (calculate_credits s).credits_used = (z : ℚ) / 100) ∧
      (calculate_credits s).credits_used = roundHalfUp2 (creditsPre s)) ∧
    ((∃ z : ℤ, (calculate_credits s).char_count_cost = (z : ℚ) / 100) ∧
      (calculate_credits s).char_count_cost =
        roundHalfUp2 (char_count_cost s)) ∧
    ((∃ z : ℤ, (calculate_credits s).word_length_cost = (z : ℚ) / 100) ∧
      (calculate_credits s).word_length_cost =
        roundHalfUp2 (word_length_cost s)) ∧
    ((∃ z : ℤ, (calculate_credits s).third_vowel_cost = (z : ℚ) / 100) ∧
      (calculate_credits s).third_vowel_cost =
        roundHalfUp2 (third_vowel_cost s)) ∧
    ((∃ z : ℤ, (calculate_credits s).length_penalty = (z : ℚ) / 100) ∧
      (calculate_credits s).length_penalty =
        roundHalfUp2 (length_penalty s)) ∧
    ((∃ z : ℤ, (calculate_credits s).unique_word_bonus = (z : ℚ) / 100) ∧
      (calculate_credits s).unique_word_bonus =
        roundHalfUp2 (unique_word_bonus s)) := by
  rw [calculate_credits_eq]
  refine ⟨⟨?_, rfl⟩, ⟨?_, rfl⟩, ⟨?_, rfl⟩, ⟨?_, rfl⟩, ⟨?_, rfl⟩, ⟨?_, rfl⟩⟩
  · rw [roundHalfUp2_hund (hund_creditsPre s)]
    exact hund_creditsPre s
  · rw [roundHalfUp2_hund (hund_char_count_cost s)]
    exact hund_char_count_cost s
  · rw [roundHalfUp2_hund (hund_word_length_cost s)]
    exact hund_word_length_cost s
  · rw [roundHalfUp2_hund (hund_third_vowel_cost s)]
    exact hund_third_vowel_cost s
  · rw [roundHalfUp2_hund (hund_length_penalty s)]
    exact hund_length_penalty s
  · rw [roundHalfUp2_hund (hund_unique_word_bonus s)]
    exact hund_unique_word_bonus s

/-- C9: the palindrome step changes only `credits_used` (and the reported
multiplier): the function factors through a variant taking the palindrome
flag as a parameter, and all six other fields of that variant are
independent of the flag. -/
theorem claim_C9 :
    (∀ s : List Char,
      calculate_credits s = calculateCreditsForced (isPalindromeMsg s) s) ∧
    (∀ (s : List Char) (b₁ b₂ : Bool),
      (calculateCreditsForced b₁ s).base_cost =
        (calculateCreditsForced b₂ s).base_cost ∧
      (calculateCreditsForced b₁ s).char_count_cost =
        (calculateCreditsForced b₂ s).char_count_cost ∧
      (calculateCreditsForced b₁ s).word_length_cost =
        (calculateCreditsForced b₂ s).word_length_cost ∧
      (calculateCreditsForced b₁ s).third_vowel_cost =
        (calculateCreditsForced b₂ s).third_vowel_cost ∧
      (calculateCreditsForced b₁ s).length_penalty =
        (calculateCreditsForced b₂ s).length_penalty ∧
      (calculateCreditsForced b₁ s).unique_word_bonus =
        (calculateCreditsForced b₂ s).unique_word_bonus) := by
  refine ⟨calculate_credits_forced, fun s b₁ b₂ => ?_⟩
  unfold calculateCreditsForced
  by_cases h : s.isEmpty = true
  · rw [if_pos h, if_pos h]
    exact ⟨rfl, rfl, rfl, rfl, rfl, rfl⟩
  · rw [if_neg h, if_neg h]
    exact ⟨rfl, rfl, rfl, rfl, rfl, rfl⟩

/-- C10: the empty-string early return is redundant: the general algorithm
path produces, field for field, the same breakdown on the empty string. -/
theorem claim_C10 :
    calculateCreditsGeneral ([] : List Char) =
      calculate_credits ([] : List Char) := by
  show calculateCreditsGeneral ([] : List Char) = emptyBreakdown
  unfold calculateCreditsGeneral emptyBreakdown
  rw [char_count_cost_nil, word_length_cost_nil, third_vowel_cost_nil,
    length_penalty_nil, unique_word_bonus_nil, isPalindromeMsg_nil]
  dsimp only
  have h1 : base_cost + 0 + 0 + 0 + 0 + 0 = (1 : ℚ) := by
    unfold base_cost
    norm_num
  rw [h1, max_self]
  simp only [Bool.false_eq_true, if_false]
  rw [roundHalfUp2_hund hund_one, roundHalfUp2_hund hund_zero]
  unfold base_cost
  rfl

end Credits
